import Mathlib

/-!
A shallow embedding of the `funktion` CLI's function-synchronization and
installer logic (`cmd/create.go`, the install command file), together with
proofs about it.

External collaborators (the Kubernetes ConfigMap store, the file system, the
fsnotify watcher, the maven repository) are modelled as explicit inputs:
store reads are passed in as list-valued snapshots, store writes are emitted
as an explicit trace of `WatchAction`s, and file reads are an
`Option String` (`none` = read error).  Strings are Lean `String`s; where the
Go code scans bytes (`filepath.Ext`, `filepath.Split`) we scan `List Char`,
which agrees with the byte-level scan because the scanned separators `'/'`
and `'.'` are ASCII and UTF-8 multi-byte continuation bytes never collide
with ASCII bytes.
-/

namespace Funktion

/-- Equality on `Except` results is decidable when it is on both sides;
used to evaluate reconciliation outcomes on concrete inputs. -/
instance {α β : Type} [DecidableEq α] [DecidableEq β] : DecidableEq (Except α β) :=
  fun a b =>
    match a, b with
    | .ok x, .ok y =>
      if h : x = y then .isTrue (by rw [h]) else .isFalse (fun hc => h (by cases hc; rfl))
    | .error x, .error y =>
      if h : x = y then .isTrue (by rw [h]) else .isFalse (fun hc => h (by cases hc; rfl))
    | .ok _, .error _ => .isFalse (fun hc => by cases hc)
    | .error _, .ok _ => .isFalse (fun hc => by cases hc)

/-- Modelled from the spec: the label key for the resource kind, from the
external `funktion` package constant `funktion.KindLabel` (the spec describes
selectors like `\x7bkind=function\x7d`).  Claims depend only on it being a fixed
string. -/
def kindLabel : String := "kind"

/-- Modelled from the spec: the label key for the runtime, from the external
`funktion` package constant `funktion.RuntimeLabel`. -/
def runtimeLabel : String := "runtime"

/-- Modelled from the spec: the data key under which a function's source text
is stored, from the external `funktion` package constant
`funktion.SourceProperty`. -/
def sourceProperty : String := "source"

/-- Modelled from the spec: the kind label value for functions, from the
external `funktion` package constant `funktion.FunctionKind`. -/
def functionKind : String := "function"

/-- A Kubernetes ConfigMap as used by `cmd/create.go`: a name, a label map
and a data map (association lists standing for Go's `map[string]string`). -/
structure ConfigMap where
  name : String
  labels : List (String × String)
  data : List (String × String)
deriving DecidableEq

/-- Go map lookup `m[key]` on a `map[string]string`: the zero value `""`
when the key is absent. -/
def mapGet (m : List (String × String)) (key : String) : String :=
  match m.find? (fun kv => kv.1 == key) with
  | some kv => kv.2
  | none => ""

/-- The remote store's state, split by the three label selectors the code
uses (`CreateFunctionListOptions`, `CreateRuntimeListOptions`,
`CreateConnectorListOptions`): each `List` call returns the corresponding
snapshot. -/
structure Store where
  functions : List ConfigMap
  runtimes : List ConfigMap
  connectors : List ConfigMap
deriving DecidableEq

/-- The fields of Go's `createFunctionCmd` that the reconciliation logic
reads: the `--name` flag, the `--runtime` flag and the `--file` flag. -/
structure CreateFunctionCmd where
  name : String
  runtime : String
  file : String
deriving DecidableEq

/-! ### Name resolution (`nameFromFile`, `cmd/create.go` lines 228-242) -/

/-- Model of `filepath.Split`'s second component: the suffix of the path after the
final `'/'` separator (char-level model of Go's byte scan). -/
def baseName : List Char → List Char
  | [] => []
  | c :: rest => if '/' ∈ c :: rest then baseName rest else c :: rest

/-- Model of `filepath.Ext` on a separator-free name: the suffix starting at the
final `'.'`, or `[]` when there is no dot.  (`nameFromFile` only applies it
to the result of `filepath.Split`, which contains no separator, so the
separator early-stop in Go's loop never fires.) -/
def goExt : List Char → List Char
  | [] => []
  | c :: rest =>
    if (goExt rest).length ≠ 0 then goExt rest
    else if c = '.' then c :: rest
    else []

/-- Model of `nameFromFile` on character lists: return the explicit `--name` flag if
non-empty; an empty path resolves to the empty name; otherwise strip the
final extension from the path's base name (`name[0 : len(name)-len(ext)]`). -/
def nameFromFileChars (pname fileName : List Char) : List Char :=
  if pname.length ≠ 0 then pname
  else if fileName.length = 0 then []
  else
    if (goExt (baseName fileName)).length > 0 then
      (baseName fileName).take ((baseName fileName).length - (goExt (baseName fileName)).length)
    else baseName fileName

/-- Model of `nameFromFile` (`cmd/create.go` lines 228-242) on `String`s. -/
def nameFromFile (pname fileName : String) : String :=
  ⟨nameFromFileChars pname.data fileName.data⟩

example : nameFromFile "" "dir/foo.js" = "foo" := by decide
example : nameFromFile "" "dir/a.b.js" = "a.b" := by decide
example : nameFromFile "" "Makefile" = "Makefile" := by decide
example : nameFromFile "" ".profile" = "" := by decide
example : nameFromFile "explicit" "dir/foo.js" = "explicit" := by decide
example : nameFromFile "" "" = "" := by decide

/-! ### Reading a source file (`loadFileSource`, lines 297-307) -/

/-- Model of `loadFileSource`: `contents = none` models an `ioutil.ReadFile` error;
an empty read fails with the exact message the source formats. -/
def loadFileSource (fileName : String) (contents : Option String) :
    Except String String :=
  match contents with
  | none => .error ("error reading file " ++ fileName)
  | some data =>
    if data.length = 0 then .error ("The file " ++ fileName ++ " is empty!")
    else .ok data

/-! ### Runtime existence check (`checkRuntimeExists`, lines 309-325) -/

/-- Model of `checkRuntimeExists`: scan a fresh `List` of runtime resources for the
requested name (the snapshot is taken from the store passed to this call,
never cached). -/
def checkRuntimeExists (store : Store) (name : String) : Except String Unit :=
  if store.runtimes.any (fun r => r.name == name) then .ok ()
  else .error ("No runtime exists called `" ++ name ++ "`")

/-! ### Building the payload (`createFunctionFromSource`, lines 273-295) -/

/-- The ConfigMap payload `createFunctionFromSource` builds: kind and
runtime labels plus the source text under `sourceProperty`. -/
def functionConfigMap (name runtime source : String) : ConfigMap :=
  { name := name
    labels := [(kindLabel, functionKind), (runtimeLabel, runtime)]
    data := [(sourceProperty, source)] }

/-- Model of `createFunctionFromSource`: reject an empty runtime flag, check the
runtime exists against a fresh runtime snapshot, then build the payload. -/
def createFunctionFromSource (p : CreateFunctionCmd) (store : Store)
    (name source : String) : Except String ConfigMap :=
  if p.runtime.length = 0 then
    .error "No runtime supplied! Please pass `-n nodejs` or some other valid runtime"
  else
    match checkRuntimeExists store p.runtime with
    | .error e => .error e
    | .ok _ => .ok (functionConfigMap name p.runtime source)

/-! ### Watch reconciliation (`updatedFile`, lines 179-226) -/

/-- An observable interaction of the watch loop with the outer world: a
`watcher.Add` call, a store `Create` or a store `Update`. -/
inductive WatchAction where
  | addWatch (path : String)
  | createCall (cm : ConfigMap)
  | updateCall (cm : ConfigMap)
deriving DecidableEq

/-- Model of `updatedFile`: one reconciliation of a changed file.  Returns the trace
of store writes issued together with the function's return value (store
writes themselves are assumed reachable; their Go error path feeds the
caller's `log.Fatal` and is not modelled beyond the returned error).

Faithful to the source: read the file, resolve the name (error when empty),
`List` the function resources and find the first one with the resolved name,
build the payload (running the runtime check), then skip when the stored
source text equals the new text, `Update` when it differs, `Create` when no
resource with that name exists. -/
def updatedFile (p : CreateFunctionCmd) (store : Store) (fileName : String)
    (contents : Option String) : List WatchAction × Except String Unit :=
  match loadFileSource fileName contents with
  | .error e => ([], .error e)
  | .ok source =>
    if (nameFromFile p.name fileName).length = 0 then
      ([], .error "Could not generate a function name!")
    else
      match createFunctionFromSource p store (nameFromFile p.name fileName) source,
            store.functions.find? (fun r => r.name == nameFromFile p.name fileName) with
      | .error e, _ => ([], .error e)
      | .ok cm, some old =>
        if source = mapGet old.data sourceProperty then ([], .ok ())
        else ([WatchAction.updateCall cm], .ok ())
      | .ok cm, none => ([WatchAction.createCall cm], .ok ())

/-- Modelled from the spec: the store's reaction to a write (§6 Store
interface): `Create` adds the named resource, `Update` replaces the resource
carrying that name; `addWatch` does not touch the store. -/
def applyWrite (store : Store) (a : WatchAction) : Store :=
  match a with
  | .addWatch _ => store
  | .createCall cm => { store with functions := store.functions ++ [cm] }
  | .updateCall cm =>
    { store with
      functions := store.functions.map (fun r => if r.name == cm.name then cm else r) }

/-- Fold `applyWrite` over a trace of writes. -/
def applyWrites (store : Store) (ws : List WatchAction) : Store :=
  ws.foldl applyWrite store

/-! ### The watch loop body (`watchFiles`, lines 157-176) -/

/-- What one iteration of the `select` loop does with control afterwards:
loop again, or `log.Fatal` (process exit). -/
inductive LoopOutcome where
  | continueWatching
  | fatalExit (msg : String)
deriving DecidableEq

/-- One value received by the `select`: a file event (fsnotify `Op` bitmask
and file name) or an error from the watcher's error channel. -/
inductive WatchEvent where
  | fileEvent (op : Nat) (name : String)
  | watcherError (msg : String)
deriving DecidableEq

/-- The fsnotify `Rename` bit (`Create=1, Write=2, Remove=4, Rename=8,
Chmod=16`). -/
def renameOp : Nat := 8

/-- One iteration of `watchFiles`'s event loop.  `fs` is the file system at
the time of the event; `addOk` tells whether `watcher.Add` would succeed.
A watcher-channel error is logged and the loop continues; on a file event
whose op has the rename bit the watched path (`p.file`) is re-added first
(`log.Fatal` when that fails), then `updatedFile` runs and any error it
returns hits `log.Fatal`. -/
def watchStep (p : CreateFunctionCmd) (store : Store) (fs : String → Option String)
    (addOk : Bool) (ev : WatchEvent) : List WatchAction × LoopOutcome :=
  match ev with
  | .watcherError _ => ([], .continueWatching)
  | .fileEvent op evName =>
    if op &&& renameOp = renameOp then
      if addOk then
        match updatedFile p store evName (fs evName) with
        | (ws, .ok _) => (WatchAction.addWatch p.file :: ws, .continueWatching)
        | (ws, .error e) => (WatchAction.addWatch p.file :: ws, .fatalExit e)
      else
        ([WatchAction.addWatch p.file], .fatalExit "watcher add failed")
    else
      match updatedFile p store evName (fs evName) with
      | (ws, .ok _) => (ws, .continueWatching)
      | (ws, .error e) => (ws, .fatalExit e)

/-! ### Name generation (`generateName`, lines 245-255) -/

/-- The decimal digit character for `n < 10`, as `strconv` produces it. -/
def digitChar (n : Nat) : Char := Char.ofNat (48 + n)

/-- Decimal-digit recursion with explicit fuel (`n / 10` strictly shrinks,
so fuel `n + 1` is always enough; kept structural so the kernel can
evaluate it). -/
def itoaCore : Nat → Nat → List Char
  | 0, _ => []
  | fuel + 1, n =>
    if n < 10 then [digitChar n]
    else itoaCore fuel (n / 10) ++ [digitChar (n % 10)]

/-- Decimal digits of `n`, most significant first: the character list of
Go's `strconv.Itoa(n)` for non-negative `n`. -/
def itoaChars (n : Nat) : List Char := itoaCore (n + 1) n

/-- Model of `strconv.Itoa` on a natural number. -/
def itoa (n : Nat) : String := ⟨itoaChars n⟩

example : itoa 3 = "3" := by decide
example : itoa 210 = "210" := by decide

/-- The candidate name `"function" + strconv.Itoa(counter)` that
`generateName` probes. -/
def candidateName (counter : Nat) : String := "function" ++ itoa counter

/-- The probing loop of `generateName`: try `candidateName counter`,
`candidateName (counter+1)`, … until one is not a key of the snapshot.  Go
runs this as an unbounded `for`; the embedding carries explicit fuel, and
`generateName` below supplies enough fuel for the loop to always answer. -/
def generateNameAux (names : List String) : Nat → Nat → Option String
  | 0, _ => none
  | fuel + 1, counter =>
    if candidateName counter ∈ names then generateNameAux names fuel (counter + 1)
    else some (candidateName counter)

/-- Model of `generateName`: first free name among `function1`, `function2`, …
against the snapshot of existing resource names.  Fuel `names.length + 1`
always suffices (proved below), so the fuel is not observable. -/
def generateName (names : List String) : Option String :=
  generateNameAux names (names.length + 1) 1

example : generateName ["function1", "function2"] = some "function3" := by decide
example : generateName [] = some "function1" := by decide

/-! ### The installers (`installConnectors`, `installRuntimes`) -/

/-- The loop body of `installRuntimes` (install command file, lines
331-360), over the already-parsed bundle items: returns the write trace, the
installed count and the ignored count.  An item whose name is an existing
resource name is updated when `replace` is set and skipped (counted ignored)
otherwise; other items are created. -/
def installRuntimeItems (replace : Bool) (existingNames : List String) :
    List ConfigMap → List WatchAction × Nat × Nat
  | [] => ([], 0, 0)
  | cm :: rest =>
    if cm.name ∈ existingNames then
      if replace then
        (WatchAction.updateCall cm :: (installRuntimeItems replace existingNames rest).1,
         (installRuntimeItems replace existingNames rest).2.1 + 1,
         (installRuntimeItems replace existingNames rest).2.2)
      else
        ((installRuntimeItems replace existingNames rest).1,
         (installRuntimeItems replace existingNames rest).2.1,
         (installRuntimeItems replace existingNames rest).2.2 + 1)
    else
      (WatchAction.createCall cm :: (installRuntimeItems replace existingNames rest).1,
       (installRuntimeItems replace existingNames rest).2.1 + 1,
       (installRuntimeItems replace existingNames rest).2.2)

/-- Model of `installRuntimes` against a store snapshot: the existing names are those
of the runtime resources returned by `List`. -/
def installRuntimes (replace : Bool) (store : Store) (items : List ConfigMap) :
    List WatchAction × Nat × Nat :=
  installRuntimeItems replace (store.runtimes.map (fun r => r.name)) items

/-- The loop body of `installConnectors` (install command file, lines
246-296).  In `list` mode every item is printed and counted, nothing is
written; otherwise an item not selected by a non-empty `onlyNames` set is
skipped outright, and the remaining items follow the same
replace/ignore/create logic as the runtimes installer. -/
def installConnectorItems (replace listFlag : Bool) (onlyNames : List String)
    (existingNames : List String) : List ConfigMap → List WatchAction × Nat × Nat
  | [] => ([], 0, 0)
  | cm :: rest =>
    if listFlag then
      ((installConnectorItems replace listFlag onlyNames existingNames rest).1,
       (installConnectorItems replace listFlag onlyNames existingNames rest).2.1 + 1,
       (installConnectorItems replace listFlag onlyNames existingNames rest).2.2)
    else if onlyNames.length ≠ 0 ∧ cm.name ∉ onlyNames then
      installConnectorItems replace listFlag onlyNames existingNames rest
    else if cm.name ∈ existingNames then
      if replace then
        (WatchAction.updateCall cm ::
          (installConnectorItems replace listFlag onlyNames existingNames rest).1,
         (installConnectorItems replace listFlag onlyNames existingNames rest).2.1 + 1,
         (installConnectorItems replace listFlag onlyNames existingNames rest).2.2)
      else
        ((installConnectorItems replace listFlag onlyNames existingNames rest).1,
         (installConnectorItems replace listFlag onlyNames existingNames rest).2.1,
         (installConnectorItems replace listFlag onlyNames existingNames rest).2.2 + 1)
    else
      (WatchAction.createCall cm ::
        (installConnectorItems replace listFlag onlyNames existingNames rest).1,
       (installConnectorItems replace listFlag onlyNames existingNames rest).2.1 + 1,
       (installConnectorItems replace listFlag onlyNames existingNames rest).2.2)

/-- Model of `installConnectors` against a store snapshot: with no `--list`, no
`--all` and no names given the command returns before the loop with no
writes; otherwise the loop runs over the bundle items with the connector
resource names as the existing set. -/
def installConnectors (replace listFlag allFlag : Bool) (onlyNames : List String)
    (store : Store) (items : List ConfigMap) : List WatchAction × Nat × Nat :=
  if ¬listFlag ∧ ¬allFlag ∧ onlyNames.length = 0 then ([], 0, 0)
  else
    installConnectorItems replace listFlag onlyNames
      (store.connectors.map (fun r => r.name)) items

/-! ### Lemmas about the reconciliation step -/

theorem applyWrite_runtimes (store : Store) (a : WatchAction) :
    (applyWrite store a).runtimes = store.runtimes := by
  cases a <;> rfl

theorem applyWrites_runtimes (store : Store) (ws : List WatchAction) :
    (applyWrites store ws).runtimes = store.runtimes := by
  induction ws generalizing store with
  | nil => rfl
  | cons a ws ih =>
    show (applyWrites (applyWrite store a) ws).runtimes = store.runtimes
    rw [ih, applyWrite_runtimes]

theorem checkRuntimeExists_congr {s t : Store} (h : s.runtimes = t.runtimes)
    (n : String) : checkRuntimeExists s n = checkRuntimeExists t n := by
  simp [checkRuntimeExists, h]

theorem createFunctionFromSource_congr {s t : Store} (h : s.runtimes = t.runtimes)
    (p : CreateFunctionCmd) (n src : String) :
    createFunctionFromSource p s n src = createFunctionFromSource p t n src := by
  simp only [createFunctionFromSource]
  rw [checkRuntimeExists_congr h]

theorem createFunctionFromSource_ok {p : CreateFunctionCmd} {store : Store}
    {n src : String} {cm : ConfigMap}
    (h : createFunctionFromSource p store n src = .ok cm) :
    cm = functionConfigMap n p.runtime src := by
  unfold createFunctionFromSource at h
  split at h
  · cases h
  · split at h
    · cases h
    · cases h; rfl

theorem functionConfigMap_name (n r src : String) :
    (functionConfigMap n r src).name = n := rfl

theorem mapGet_functionConfigMap (n r src : String) :
    mapGet (functionConfigMap n r src).data sourceProperty = src := by
  simp [mapGet, functionConfigMap, List.find?]

/-- With a successful non-empty read and a resolved name, `updatedFile`
reduces to the payload-build / lookup decision. -/
theorem updatedFile_some_eq (p : CreateFunctionCmd) (store : Store)
    (fileName s : String) (hs : s.length ≠ 0)
    (hn : (nameFromFile p.name fileName).length ≠ 0) :
    updatedFile p store fileName (some s) =
      match createFunctionFromSource p store (nameFromFile p.name fileName) s,
            store.functions.find? (fun r => r.name == nameFromFile p.name fileName) with
      | .error e, _ => ([], .error e)
      | .ok cm, some old =>
        if s = mapGet old.data sourceProperty then ([], .ok ())
        else ([WatchAction.updateCall cm], .ok ())
      | .ok cm, none => ([WatchAction.createCall cm], .ok ()) := by
  simp [updatedFile, loadFileSource, hs, hn]

/-- Replacing every entry named `cm.name` by `cm` makes `cm` the first entry
found under that name, provided some entry with the name was found before. -/
theorem find?_map_replace (l : List ConfigMap) (cm old : ConfigMap) (n : String)
    (hcm : cm.name = n) (h : l.find? (fun r => r.name == n) = some old) :
    (l.map (fun r => if r.name == cm.name then cm else r)).find?
      (fun r => r.name == n) = some cm := by
  induction l with
  | nil => simp at h
  | cons r rest ih =>
    by_cases hr : r.name = n
    · simp only [List.map_cons]
      have hif : (if r.name == cm.name then cm else r) = cm := by
        simp [hcm, hr]
      rw [hif]
      exact List.find?_cons_of_pos _ (by simp [hcm])
    · rw [List.find?_cons_of_neg _ (by simp [hr])] at h
      simp only [List.map_cons]
      have hif : (if r.name == cm.name then cm else r) = r := by
        simp [hcm, hr]
      rw [hif, List.find?_cons_of_neg _ (by simp [hr])]
      exact ih h

/-- Appending `cm` to a list in which nothing was found under `cm`'s name
makes `cm` the entry found under that name. -/
theorem find?_append_self (l : List ConfigMap) (cm : ConfigMap) (n : String)
    (hcm : cm.name = n) (h : l.find? (fun r => r.name == n) = none) :
    (l ++ [cm]).find? (fun r => r.name == n) = some cm := by
  rw [List.find?_append, h]
  simp [List.find?_cons_of_pos, hcm]

/-! ### Claim theorems -/

/-- C1: during watch reconciliation, if the store already contains a
resource with the resolved name whose stored source text equals the newly
read file contents, no Create and no Update call is issued (the skip
compares only source text, so this holds regardless of the runtime label on
the new payload — and indeed regardless of whether the runtime check even
succeeds); moreover reconciling the same unchanged file content twice,
applying the first reconciliation's writes to the store in between, issues
at most one store write in total. -/
theorem updatedFile_skip_unchanged (p : CreateFunctionCmd) (store : Store)
    (fileName s : String) (old : ConfigMap) (hs : s.length ≠ 0)
    (hn : (nameFromFile p.name fileName).length ≠ 0) :
    (store.functions.find? (fun r => r.name == nameFromFile p.name fileName) = some old →
      mapGet old.data sourceProperty = s →
      (updatedFile p store fileName (some s)).1 = []) ∧
    ((updatedFile p store fileName (some s)).1 ++
      (updatedFile p (applyWrites store (updatedFile p store fileName (some s)).1)
        fileName (some s)).1).length ≤ 1 := by
  have hw := updatedFile_some_eq p store fileName s hs hn
  constructor
  · intro hfind hsrc
    rw [hw]
    rcases hcr : createFunctionFromSource p store (nameFromFile p.name fileName) s
      with e | cm
    · simp
    · rw [hfind]
      simp [hsrc]
  · rcases hcr : createFunctionFromSource p store (nameFromFile p.name fileName) s
      with e | cm
    · have hw1 : (updatedFile p store fileName (some s)).1 = [] := by
        rw [hw, hcr]
      rw [hw1]
      simp only [applyWrites, List.foldl_nil, List.nil_append]
      rw [hw1]
      simp
    · have hcm : cm = functionConfigMap (nameFromFile p.name fileName) p.runtime s :=
        createFunctionFromSource_ok hcr
      rcases hfind : store.functions.find?
          (fun r => r.name == nameFromFile p.name fileName) with _ | old'
      · have hw1 : (updatedFile p store fileName (some s)).1 =
            [WatchAction.createCall cm] := by
          rw [hw, hcr, hfind]
        rw [hw1]
        have hfind2 :
            (applyWrites store [WatchAction.createCall cm]).functions.find?
              (fun r => r.name == nameFromFile p.name fileName) = some cm :=
          find?_append_self _ _ _ (by rw [hcm]; rfl) hfind
        have hcr2 : createFunctionFromSource p
            (applyWrites store [WatchAction.createCall cm])
            (nameFromFile p.name fileName) s = .ok cm := by
          rw [createFunctionFromSource_congr
            (applyWrites_runtimes store [WatchAction.createCall cm]) p _ s]
          exact hcr
        have hw2 : (updatedFile p (applyWrites store [WatchAction.createCall cm])
            fileName (some s)).1 = [] := by
          rw [updatedFile_some_eq _ _ _ _ hs hn, hcr2, hfind2]
          simp [hcm, mapGet_functionConfigMap]
        rw [hw2]
        simp
      · by_cases hsame : s = mapGet old'.data sourceProperty
        · have hw1 : (updatedFile p store fileName (some s)).1 = [] := by
            rw [hw, hcr, hfind]
            simp [hsame]
          rw [hw1]
          simp only [applyWrites, List.foldl_nil, List.nil_append]
          rw [hw1]
          simp
        · have hw1 : (updatedFile p store fileName (some s)).1 =
              [WatchAction.updateCall cm] := by
            rw [hw, hcr, hfind]
            simp [hsame]
          rw [hw1]
          have hfind2 :
              (applyWrites store [WatchAction.updateCall cm]).functions.find?
                (fun r => r.name == nameFromFile p.name fileName) = some cm :=
            find?_map_replace _ _ old' _ (by rw [hcm]; rfl) hfind
          have hcr2 : createFunctionFromSource p
              (applyWrites store [WatchAction.updateCall cm])
              (nameFromFile p.name fileName) s = .ok cm := by
            rw [createFunctionFromSource_congr
              (applyWrites_runtimes store [WatchAction.updateCall cm]) p _ s]
            exact hcr
          have hw2 : (updatedFile p (applyWrites store [WatchAction.updateCall cm])
              fileName (some s)).1 = [] := by
            rw [updatedFile_some_eq _ _ _ _ hs hn, hcr2, hfind2]
            simp [hcm, mapGet_functionConfigMap]
          rw [hw2]
          simp

/-- Witness for C1 at a concrete input: store holds `foo` with source `"A"`,
the file `foo.js` still reads `"A"`; no write is issued and the two-step
write total is at most one. -/
theorem updatedFile_skip_unchanged_witness :
    (updatedFile ⟨"", "nodejs", "foo.js"⟩
      ⟨[functionConfigMap "foo" "nodejs" "A"], [], []⟩ "foo.js" (some "A")).1 = [] ∧
    ((updatedFile ⟨"", "nodejs", "foo.js"⟩
        ⟨[functionConfigMap "foo" "nodejs" "A"], [], []⟩ "foo.js" (some "A")).1 ++
      (updatedFile ⟨"", "nodejs", "foo.js"⟩
        (applyWrites ⟨[functionConfigMap "foo" "nodejs" "A"], [], []⟩
          (updatedFile ⟨"", "nodejs", "foo.js"⟩
            ⟨[functionConfigMap "foo" "nodejs" "A"], [], []⟩ "foo.js" (some "A")).1)
        "foo.js" (some "A")).1).length ≤ 1 := by
  have h := updatedFile_skip_unchanged ⟨"", "nodejs", "foo.js"⟩
    ⟨[functionConfigMap "foo" "nodejs" "A"], [], []⟩ "foo.js" "A"
    (functionConfigMap "foo" "nodejs" "A") (by decide) (by decide)
  exact ⟨h.1 (by decide) (by decide), h.2⟩

/-- C2: for a watch reconciliation with a readable non-empty file, a
resolvable name and the configured (non-empty) runtime present in the
runtime snapshot: when a resource with the resolved name exists whose stored
source text differs from the new text, exactly one Update call carrying the
new source text is issued and no Create; when no resource with the resolved
name exists, exactly one Create call is issued and no Update. -/
theorem updatedFile_write_decision (p : CreateFunctionCmd) (store : Store)
    (fileName s : String) (hs : s.length ≠ 0)
    (hn : (nameFromFile p.name fileName).length ≠ 0)
    (hrt0 : p.runtime.length ≠ 0)
    (hrt : store.runtimes.any (fun r => r.name == p.runtime) = true) :
    (∀ old,
      store.functions.find? (fun r => r.name == nameFromFile p.name fileName) = some old →
      mapGet old.data sourceProperty ≠ s →
      updatedFile p store fileName (some s) =
        ([WatchAction.updateCall
            (functionConfigMap (nameFromFile p.name fileName) p.runtime s)], .ok ())) ∧
    (store.functions.find? (fun r => r.name == nameFromFile p.name fileName) = none →
      updatedFile p store fileName (some s) =
        ([WatchAction.createCall
            (functionConfigMap (nameFromFile p.name fileName) p.runtime s)], .ok ())) := by
  have hcr : createFunctionFromSource p store (nameFromFile p.name fileName) s =
      .ok (functionConfigMap (nameFromFile p.name fileName) p.runtime s) := by
    simp [createFunctionFromSource, checkRuntimeExists, hrt0, hrt]
  constructor
  · intro old hfind hne
    rw [updatedFile_some_eq p store fileName s hs hn, hcr, hfind]
    have hne' : ¬s = mapGet old.data sourceProperty := fun h => hne h.symm
    simp [hne']
  · intro hfind
    rw [updatedFile_some_eq p store fileName s hs hn, hcr, hfind]

/-- Witness for C2 at the spec's concrete inputs: `foo` stored with source
`"A"` and `foo.js` now reading `"B"` gives exactly one Update with `"B"`;
no stored `bar` and a new `bar.js` reading `"X"` gives exactly one Create. -/
theorem updatedFile_write_decision_witness :
    updatedFile ⟨"", "nodejs", "foo.js"⟩
      ⟨[functionConfigMap "foo" "nodejs" "A"], [⟨"nodejs", [], []⟩], []⟩
      "foo.js" (some "B") =
      ([WatchAction.updateCall (functionConfigMap "foo" "nodejs" "B")], .ok ()) ∧
    updatedFile ⟨"", "nodejs", "bar.js"⟩ ⟨[], [⟨"nodejs", [], []⟩], []⟩
      "bar.js" (some "X") =
      ([WatchAction.createCall (functionConfigMap "bar" "nodejs" "X")], .ok ()) := by
  constructor
  · exact (updatedFile_write_decision ⟨"", "nodejs", "foo.js"⟩
      ⟨[functionConfigMap "foo" "nodejs" "A"], [⟨"nodejs", [], []⟩], []⟩ "foo.js" "B"
      (by decide) (by decide) (by decide) (by decide)).1
      (functionConfigMap "foo" "nodejs" "A") (by decide) (by decide)
  · exact (updatedFile_write_decision ⟨"", "nodejs", "bar.js"⟩
      ⟨[], [⟨"nodejs", [], []⟩], []⟩ "bar.js" "X"
      (by decide) (by decide) (by decide) (by decide)).2 (by decide)

/-- C5: when the configured (non-empty) runtime name is not among the
runtime resources listed from the store, a watch reconciliation of a
readable, non-empty, name-resolvable file fails with the unknown-runtime
error and issues no Create and no Update; and because the existence check
lists runtimes afresh from the store handed to each attempt, adding a
resource with the runtime's name to the store makes the check succeed on the
next attempt. -/
theorem updatedFile_unknown_runtime (p : CreateFunctionCmd) (store : Store)
    (fileName s : String) (hs : s.length ≠ 0)
    (hn : (nameFromFile p.name fileName).length ≠ 0)
    (hrt0 : p.runtime.length ≠ 0)
    (habsent : store.runtimes.any (fun r => r.name == p.runtime) = false) :
    updatedFile p store fileName (some s) =
      ([], .error ("No runtime exists called `" ++ p.runtime ++ "`")) ∧
    checkRuntimeExists store p.runtime =
      .error ("No runtime exists called `" ++ p.runtime ++ "`") ∧
    (∀ rt : ConfigMap, rt.name = p.runtime →
      checkRuntimeExists { store with runtimes := store.runtimes ++ [rt] } p.runtime =
        .ok ()) := by
  have hchk : checkRuntimeExists store p.runtime =
      .error ("No runtime exists called `" ++ p.runtime ++ "`") := by
    simp [checkRuntimeExists, habsent]
  refine ⟨?_, hchk, ?_⟩
  · have hcr : createFunctionFromSource p store (nameFromFile p.name fileName) s =
        .error ("No runtime exists called `" ++ p.runtime ++ "`") := by
      simp [createFunctionFromSource, hrt0, hchk]
    rw [updatedFile_some_eq p store fileName s hs hn, hcr]
  · intro rt hrt
    simp [checkRuntimeExists, hrt]

/-- Witness for C5 at a concrete input: no runtimes stored, so reconciling
`foo.js` fails with the unknown-runtime error and writes nothing; with a
`nodejs` runtime resource added, the existence check succeeds. -/
theorem updatedFile_unknown_runtime_witness :
    updatedFile ⟨"", "nodejs", "foo.js"⟩ ⟨[], [], []⟩ "foo.js" (some "X") =
      ([], .error "No runtime exists called `nodejs`") ∧
    checkRuntimeExists ⟨[], [(⟨"nodejs", [], []⟩ : ConfigMap)], []⟩ "nodejs" = .ok () := by
  have h := updatedFile_unknown_runtime ⟨"", "nodejs", "foo.js"⟩ ⟨[], [], []⟩
    "foo.js" "X" (by decide) (by decide) (by decide) (by decide)
  exact ⟨h.1, h.2.2 ⟨"nodejs", [], []⟩ rfl⟩

/-- A file system on which every read fails. -/
def unreadableFS : String → Option String := fun _ => none

/-- A file system on which every file reads as empty. -/
def emptyFS : String → Option String := fun _ => some ""

/-- Counterexample to C3 as stated: a watch event whose file read fails is a
per-file error, yet the loop body ends in `log.Fatal` (process exit), not in
continuing to await the next event. -/
theorem watch_read_error_not_continue_cex :
    (updatedFile ⟨"", "nodejs", "foo.js"⟩ ⟨[], [], []⟩ "foo.js"
        (unreadableFS "foo.js")).2 = Except.error "error reading file foo.js" ∧
    (watchStep ⟨"", "nodejs", "foo.js"⟩ ⟨[], [], []⟩ unreadableFS true
        (WatchEvent.fileEvent 2 "foo.js")).2 ≠ LoopOutcome.continueWatching := by
  decide

/-- C3 (amended): errors from the watcher's error channel are logged and the
loop keeps running, but an error arising while handling a file event — in
particular a failure to read the watched file — terminates the process
through `log.Fatal`, for plain events as well as rename-class events. -/
theorem watchStep_error_policy (p : CreateFunctionCmd) (store : Store)
    (fs : String → Option String) (addOk : Bool) (msg evName e : String) (op : Nat) :
    (watchStep p store fs addOk (WatchEvent.watcherError msg)).2 =
      LoopOutcome.continueWatching ∧
    (op &&& renameOp ≠ renameOp →
      (updatedFile p store evName (fs evName)).2 = .error e →
      (watchStep p store fs addOk (WatchEvent.fileEvent op evName)).2 =
        LoopOutcome.fatalExit e) ∧
    (op &&& renameOp = renameOp →
      (updatedFile p store evName (fs evName)).2 = .error e →
      (watchStep p store fs true (WatchEvent.fileEvent op evName)).2 =
        LoopOutcome.fatalExit e) := by
  refine ⟨rfl, ?_, ?_⟩
  · intro hop herr
    rcases hu : updatedFile p store evName (fs evName) with ⟨ws, res⟩
    rw [hu] at herr
    simp at herr
    subst herr
    simp [watchStep, hop, hu]
  · intro hop herr
    rcases hu : updatedFile p store evName (fs evName) with ⟨ws, res⟩
    rw [hu] at herr
    simp at herr
    subst herr
    simp [watchStep, hop, hu]

/-- Witness for the amended C3 at concrete inputs: a watcher-channel error
continues; a write event and a rename event on an unreadable file are both
fatal. -/
theorem watchStep_error_policy_witness :
    (watchStep ⟨"", "nodejs", "foo.js"⟩ ⟨[], [], []⟩ unreadableFS true
      (WatchEvent.watcherError "m")).2 = LoopOutcome.continueWatching ∧
    (watchStep ⟨"", "nodejs", "foo.js"⟩ ⟨[], [], []⟩ unreadableFS true
      (WatchEvent.fileEvent 2 "foo.js")).2 =
        LoopOutcome.fatalExit "error reading file foo.js" ∧
    (watchStep ⟨"", "nodejs", "foo.js"⟩ ⟨[], [], []⟩ unreadableFS true
      (WatchEvent.fileEvent 8 "foo.js")).2 =
        LoopOutcome.fatalExit "error reading file foo.js" := by
  refine ⟨(watchStep_error_policy ⟨"", "nodejs", "foo.js"⟩ ⟨[], [], []⟩ unreadableFS
      true "m" "foo.js" "error reading file foo.js" 2).1, ?_, ?_⟩
  · exact (watchStep_error_policy ⟨"", "nodejs", "foo.js"⟩ ⟨[], [], []⟩ unreadableFS
      true "m" "foo.js" "error reading file foo.js" 2).2.1 (by decide) (by decide)
  · exact (watchStep_error_policy ⟨"", "nodejs", "foo.js"⟩ ⟨[], [], []⟩ unreadableFS
      true "m" "foo.js" "error reading file foo.js" 8).2.2 (by decide) (by decide)

/-- Counterexample to C4 as stated: an empty watched file indeed triggers no
store write, but the loop body ends in `log.Fatal` (process exit) rather
than the watch loop continuing. -/
theorem watch_empty_file_terminates_cex :
    (updatedFile ⟨"", "nodejs", "foo.js"⟩ ⟨[], [], []⟩ "foo.js" (some "")).1 = [] ∧
    (watchStep ⟨"", "nodejs", "foo.js"⟩ ⟨[], [], []⟩ emptyFS true
        (WatchEvent.fileEvent 2 "foo.js")).2 ≠ LoopOutcome.continueWatching := by
  decide

/-- C4 (amended): reading an empty watched file issues no Create and no
Update and the reconciliation reports the empty-file error — but in the
watch loop that error reaches `log.Fatal`, so the process terminates instead
of the loop continuing. -/
theorem updatedFile_empty_file (p : CreateFunctionCmd) (store : Store)
    (fs : String → Option String) (addOk : Bool) (evName : String) (op : Nat)
    (hfs : fs evName = some "") (hop : op &&& renameOp ≠ renameOp) :
    updatedFile p store evName (fs evName) =
      ([], .error ("The file " ++ evName ++ " is empty!")) ∧
    (watchStep p store fs addOk (WatchEvent.fileEvent op evName)).2 =
      LoopOutcome.fatalExit ("The file " ++ evName ++ " is empty!") := by
  have hu : updatedFile p store evName (fs evName) =
      ([], .error ("The file " ++ evName ++ " is empty!")) := by
    rw [hfs]
    simp [updatedFile, loadFileSource]
  exact ⟨hu, by simp [watchStep, hop, hu]⟩

/-- Witness for the amended C4 at a concrete input: an empty `foo.js` issues
no write and the loop body exits fatally with the empty-file error. -/
theorem updatedFile_empty_file_witness :
    updatedFile ⟨"", "nodejs", "foo.js"⟩ ⟨[], [], []⟩ "foo.js" (emptyFS "foo.js") =
      ([], .error "The file foo.js is empty!") ∧
    (watchStep ⟨"", "nodejs", "foo.js"⟩ ⟨[], [], []⟩ emptyFS true
        (WatchEvent.fileEvent 2 "foo.js")).2 =
      LoopOutcome.fatalExit "The file foo.js is empty!" :=
  updatedFile_empty_file ⟨"", "nodejs", "foo.js"⟩ ⟨[], [], []⟩ emptyFS true
    "foo.js" 2 (by decide) (by decide)

/-- C8: on an event whose op includes the rename bit, the loop re-adds the
watched path (`p.file`) to the watcher before any store write of that
event's reconciliation — the add is the head of the action trace; and when
the re-add fails the loop body performs no reconciliation at all and exits,
so a rename-class event never leaves the path silently unobserved. -/
theorem watchStep_rename_readds (p : CreateFunctionCmd) (store : Store)
    (fs : String → Option String) (evName : String) (op : Nat)
    (hop : op &&& renameOp = renameOp) :
    (watchStep p store fs true (WatchEvent.fileEvent op evName)).1 =
      WatchAction.addWatch p.file :: (updatedFile p store evName (fs evName)).1 ∧
    watchStep p store fs false (WatchEvent.fileEvent op evName) =
      ([WatchAction.addWatch p.file], LoopOutcome.fatalExit "watcher add failed") := by
  constructor
  · rcases hu : updatedFile p store evName (fs evName) with ⟨ws, res⟩
    cases res <;> simp [watchStep, hop, hu]
  · simp [watchStep, hop]

/-- Witness for C8 at a concrete input: a rename event (op 8) on `foo.js`
re-adds the watch first, both when the re-add succeeds and when it fails. -/
theorem watchStep_rename_readds_witness :
    (watchStep ⟨"", "nodejs", "foo.js"⟩ ⟨[], [⟨"nodejs", [], []⟩], []⟩
        (fun _ => some "X") true (WatchEvent.fileEvent 8 "foo.js")).1 =
      WatchAction.addWatch "foo.js" ::
        (updatedFile ⟨"", "nodejs", "foo.js"⟩ ⟨[], [⟨"nodejs", [], []⟩], []⟩
          "foo.js" (some "X")).1 ∧
    watchStep ⟨"", "nodejs", "foo.js"⟩ ⟨[], [⟨"nodejs", [], []⟩], []⟩
        (fun _ => some "X") false (WatchEvent.fileEvent 8 "foo.js") =
      ([WatchAction.addWatch "foo.js"], LoopOutcome.fatalExit "watcher add failed") :=
  watchStep_rename_readds ⟨"", "nodejs", "foo.js"⟩ ⟨[], [⟨"nodejs", [], []⟩], []⟩
    (fun _ => some "X") "foo.js" 8 (by decide)

/-! ### Lemmas about extension stripping (for C6 and C10) -/

theorem goExt_eq_nil_iff (l : List Char) : goExt l = [] ↔ '.' ∉ l := by
  induction l with
  | nil => simp [goExt]
  | cons c rest ih =>
    by_cases hd : goExt rest = []
    · by_cases hc : c = '.'
      · subst hc
        simp [goExt, hd]
      · have hL : goExt (c :: rest) = [] := by
          simp [goExt, hd, hc]
        rw [hL]
        simp only [List.mem_cons, not_or]
        constructor
        · intro _
          exact ⟨fun h => hc h.symm, ih.mp hd⟩
        · intro _
          trivial
    · have hmem : '.' ∈ rest := by
        by_contra hmem
        exact hd (ih.mpr hmem)
      simp [goExt, hd, hmem]

/-- When a dot occurs, `goExt` is the suffix from the last dot onward. -/
theorem goExt_last_dot (l : List Char) (h : '.' ∈ l) :
    ∃ a b, l = a ++ '.' :: b ∧ '.' ∉ b ∧ goExt l = '.' :: b := by
  induction l with
  | nil => simp at h
  | cons c rest ih =>
    by_cases hr : '.' ∈ rest
    · obtain ⟨a, b, hl, hb, he⟩ := ih hr
      refine ⟨c :: a, b, by rw [hl]; rfl, hb, ?_⟩
      have hne : (goExt rest).length ≠ 0 := by rw [he]; simp
      simp only [goExt, if_pos hne]
      exact he
    · have hc : c = '.' := by
        rcases List.mem_cons.mp h with h1 | h2
        · exact h1.symm
        · exact absurd h2 hr
      have hd : goExt rest = [] := (goExt_eq_nil_iff rest).mpr hr
      subst hc
      refine ⟨[], rest, rfl, hr, ?_⟩
      simp [goExt, hd]

/-- The data of a non-empty string is non-empty. -/
theorem data_ne_nil {s : String} (h : s ≠ "") : s.data ≠ [] := by
  intro hd
  apply h
  cases s with
  | mk l =>
    simp only at hd
    rw [hd]

/-- Reduction of `nameFromFileChars` with no explicit name and a non-empty path reduces
to the extension-stripping branch. -/
theorem nameFromFileChars_strip (f : List Char) (hf : f.length ≠ 0) :
    nameFromFileChars [] f =
      if (goExt (baseName f)).length > 0 then
        (baseName f).take ((baseName f).length - (goExt (baseName f)).length)
      else baseName f := by
  unfold nameFromFileChars
  rw [if_neg (by simp), if_neg hf]

/-- C6: `nameFromFile` returns the explicit name flag unchanged whenever it
is non-empty; an empty path with no explicit name resolves to the empty
string; otherwise the result is the path's base name when that base name
has no dot, and everything strictly before the base name's final dot when it
has one (the text from the final dot onward is stripped). -/
theorem nameFromFile_spec (pname fileName : String) :
    (pname ≠ "" → nameFromFile pname fileName = pname) ∧
    nameFromFile "" "" = "" ∧
    (pname = "" → fileName ≠ "" → '.' ∉ baseName fileName.data →
      nameFromFile pname fileName = ⟨baseName fileName.data⟩) ∧
    (pname = "" → fileName ≠ "" → '.' ∈ baseName fileName.data →
      ∃ b, baseName fileName.data = (nameFromFile pname fileName).data ++ '.' :: b ∧
        '.' ∉ b) := by
  refine ⟨?_, by decide, ?_, ?_⟩
  · intro hp
    have hp' : pname.data.length ≠ 0 := by
      intro h0
      exact data_ne_nil hp (List.length_eq_zero.mp h0)
    show (⟨nameFromFileChars pname.data fileName.data⟩ : String) = pname
    unfold nameFromFileChars
    rw [if_pos hp']
  · intro hp hf hdot
    subst hp
    have hf' : fileName.data.length ≠ 0 := fun h0 =>
      data_ne_nil hf (List.length_eq_zero.mp h0)
    have hext : goExt (baseName fileName.data) = [] := (goExt_eq_nil_iff _).mpr hdot
    show (⟨nameFromFileChars [] fileName.data⟩ : String) = ⟨baseName fileName.data⟩
    rw [nameFromFileChars_strip _ hf', hext]
    simp
  · intro hp hf hdot
    subst hp
    have hf' : fileName.data.length ≠ 0 := fun h0 =>
      data_ne_nil hf (List.length_eq_zero.mp h0)
    obtain ⟨a, b, hl, hb, he⟩ := goExt_last_dot _ hdot
    refine ⟨b, ?_, hb⟩
    have hdata : (nameFromFile "" fileName).data = a := by
      show nameFromFileChars [] fileName.data = a
      rw [nameFromFileChars_strip _ hf', he]
      rw [if_pos (by simp)]
      rw [hl]
      simp only [List.length_append, List.length_cons, Nat.add_sub_cancel]
      exact List.take_left a ('.' :: b)
    rw [hdata, hl]

/-- Witness for C6 at concrete inputs: an explicit name wins; `dir/a.b.js`
strips only the final extension; a dot-free base name is kept whole. -/
theorem nameFromFile_spec_witness :
    nameFromFile "explicit" "dir/foo.js" = "explicit" ∧
    nameFromFile "" "" = "" ∧
    nameFromFile "" "dir/Makefile" = "Makefile" ∧
    (∃ b, baseName ("dir/a.b.js" : String).data =
      (nameFromFile "" "dir/a.b.js").data ++ '.' :: b ∧ '.' ∉ b) := by
  refine ⟨(nameFromFile_spec "explicit" "dir/foo.js").1 (by decide),
    (nameFromFile_spec "" "").2.1, ?_, ?_⟩
  · have h := (nameFromFile_spec "" "dir/Makefile").2.2.1 rfl (by decide) (by decide)
    exact h
  · exact (nameFromFile_spec "" "dir/a.b.js").2.2.2 rfl (by decide) (by decide)

/-- C10: a file whose base name begins with a dot and has no other dot (for
example `.profile`) resolves, with no explicit name, to the empty string —
the whole base name is treated as the extension and stripped — so watch
reconciliation of such a file takes the name-resolution-failure path: no
write and the could-not-generate-name error, despite a readable non-empty
file. -/
theorem nameFromFile_dotfile (p : CreateFunctionCmd) (store : Store)
    (fileName s : String) (t : List Char) (hp : p.name = "")
    (hbase : baseName fileName.data = '.' :: t) (ht : '.' ∉ t)
    (hs : s.length ≠ 0) :
    nameFromFile p.name fileName = "" ∧
    updatedFile p store fileName (some s) =
      ([], .error "Could not generate a function name!") := by
  have hf' : fileName.data.length ≠ 0 := by
    intro h0
    rw [List.length_eq_zero.mp h0] at hbase
    exact absurd hbase (by simp [baseName])
  have hext : goExt (baseName fileName.data) = '.' :: t := by
    rw [hbase]
    have hd : goExt t = [] := (goExt_eq_nil_iff t).mpr ht
    simp [goExt, hd]
  have hname : nameFromFile p.name fileName = "" := by
    rw [hp]
    show (⟨nameFromFileChars [] fileName.data⟩ : String) = ""
    rw [nameFromFileChars_strip _ hf', hext]
    rw [if_pos (by simp), hbase]
    simp only [Nat.sub_self, List.take_zero]
  refine ⟨hname, ?_⟩
  have hn0 : (nameFromFile p.name fileName).length = 0 := by rw [hname]; rfl
  simp [updatedFile, loadFileSource, hs, hn0]

/-- Witness for C10 at the concrete input `.profile`: name resolution yields
the empty string and reconciliation fails with the name-generation error. -/
theorem nameFromFile_dotfile_witness :
    nameFromFile "" ".profile" = "" ∧
    updatedFile ⟨"", "nodejs", ".profile"⟩ ⟨[], [], []⟩ ".profile" (some "x") =
      ([], .error "Could not generate a function name!") :=
  nameFromFile_dotfile ⟨"", "nodejs", ".profile"⟩ ⟨[], [], []⟩ ".profile" "x"
    ("profile" : String).data rfl (by decide) (by decide) (by decide)

/-! ### Lemmas about name generation (for C7) -/

/-- Evaluate a decimal digit string back to the number it denotes. -/
def digitsVal (l : List Char) : Nat :=
  l.foldl (fun acc c => 10 * acc + (c.toNat - 48)) 0

theorem digitChar_toNat (n : Nat) (h : n < 10) : (digitChar n).toNat = 48 + n := by
  interval_cases n <;> decide

theorem digitsVal_itoaCore (fuel : Nat) : ∀ n, n < fuel →
    digitsVal (itoaCore fuel n) = n := by
  induction fuel with
  | zero => intro n h; omega
  | succ fuel ih =>
    intro n h
    by_cases h10 : n < 10
    · simp [itoaCore, h10, digitsVal, digitChar_toNat n h10]
    · have hdiv : n / 10 < fuel := by
        have := Nat.div_lt_self (show 0 < n by omega) (show 1 < 10 by omega)
        omega
      rw [itoaCore, if_neg h10, digitsVal, List.foldl_append]
      have hrec : List.foldl (fun acc c => 10 * acc + (c.toNat - 48)) 0
          (itoaCore fuel (n / 10)) = n / 10 := ih (n / 10) hdiv
      rw [hrec]
      simp only [List.foldl_cons, List.foldl_nil]
      rw [digitChar_toNat (n % 10) (Nat.mod_lt _ (by omega))]
      omega

theorem itoaChars_injective : Function.Injective itoaChars := by
  intro m n h
  have hm := digitsVal_itoaCore (m + 1) m (by omega)
  have hn := digitsVal_itoaCore (n + 1) n (by omega)
  have h' : itoaCore (m + 1) m = itoaCore (n + 1) n := h
  rw [h', hn] at hm
  exact hm.symm

theorem candidateName_injective : Function.Injective candidateName := by
  intro a b h
  have hdata : ("function" ++ itoa a).data = ("function" ++ itoa b).data := by
    rw [show ("function" ++ itoa a : String) = "function" ++ itoa b from h]
  rw [String.data_append, String.data_append] at hdata
  exact itoaChars_injective (List.append_cancel_left hdata)

/-- The probing loop returns the first free candidate at or past `counter`,
provided some free candidate lies within the fuel window. -/
theorem generateNameAux_first_free (names : List String) (fuel : Nat) :
    ∀ counter, (∃ i, counter ≤ i ∧ i < counter + fuel ∧ candidateName i ∉ names) →
    ∃ N, generateNameAux names fuel counter = some (candidateName N) ∧
      counter ≤ N ∧ candidateName N ∉ names ∧
      ∀ m, counter ≤ m → m < N → candidateName m ∈ names := by
  induction fuel with
  | zero =>
    intro counter h
    obtain ⟨i, h1, h2, _⟩ := h
    omega
  | succ fuel ih =>
    intro counter h
    by_cases hc : candidateName counter ∈ names
    · have h' : ∃ i, counter + 1 ≤ i ∧ i < (counter + 1) + fuel ∧
          candidateName i ∉ names := by
        obtain ⟨i, h1, h2, h3⟩ := h
        rcases Nat.eq_or_lt_of_le h1 with he | hlt
        · exact absurd (he ▸ hc) h3
        · exact ⟨i, hlt, by omega, h3⟩
      obtain ⟨N, hN1, hN2, hN3, hN4⟩ := ih (counter + 1) h'
      refine ⟨N, ?_, by omega, hN3, ?_⟩
      · simp [generateNameAux, hc, hN1]
      · intro m hm1 hm2
        rcases Nat.eq_or_lt_of_le hm1 with he | hlt
        · exact he ▸ hc
        · exact hN4 m hlt hm2
    · refine ⟨counter, ?_, Nat.le_refl _, hc, fun m hm1 hm2 => absurd hm2 (by omega)⟩
      simp [generateNameAux, hc]

/-- Pigeonhole: among the candidates `counter = 1 … names.length + 1` at
least one is not in the snapshot. -/
theorem candidate_free_exists (names : List String) :
    ∃ i, 1 ≤ i ∧ i < 1 + (names.length + 1) ∧ candidateName i ∉ names := by
  by_contra hall
  push_neg at hall
  have hsub : (Finset.Icc 1 (names.length + 1)).image candidateName ⊆
      names.toFinset := by
    intro x hx
    simp only [Finset.mem_image, Finset.mem_Icc] at hx
    obtain ⟨i, ⟨hi1, hi2⟩, rfl⟩ := hx
    exact List.mem_toFinset.mpr (hall i hi1 (by omega))
  have hcard : ((Finset.Icc 1 (names.length + 1)).image candidateName).card =
      names.length + 1 := by
    rw [Finset.card_image_of_injective _ candidateName_injective, Nat.card_Icc]
    omega
  have hle := Finset.card_le_card hsub
  have hlen := List.toFinset_card_le names
  omega

/-- C7: for every snapshot of existing resource names, name generation
terminates with `function<N>` for the smallest positive `N` whose candidate
is not in the snapshot — in particular the returned name is never in the
snapshot — and on the snapshot `\x7bfunction1, function2\x7d` it returns
`function3`. -/
theorem generateName_spec :
    (∀ names : List String, ∃ N, 0 < N ∧
      generateName names = some (candidateName N) ∧
      candidateName N ∉ names ∧
      ∀ m, 0 < m → m < N → candidateName m ∈ names) ∧
    generateName ["function1", "function2"] = some "function3" := by
  constructor
  · intro names
    obtain ⟨N, h1, h2, h3, h4⟩ := generateNameAux_first_free names (names.length + 1) 1
      (candidate_free_exists names)
    exact ⟨N, by omega, h1, h3, fun m hm1 hm2 => h4 m (by omega) hm2⟩
  · decide

/-- Witness for C7 at the spec's concrete snapshot. -/
theorem generateName_spec_witness :
    generateName ["function1", "function2"] = some "function3" :=
  generateName_spec.2

/-! ### Lemmas about the installers (for C9) -/

/-- The per-item write decision of the runtimes installer loop. -/
def runtimeWriteFor (replace : Bool) (ex : List String) (cm : ConfigMap) :
    Option WatchAction :=
  if cm.name ∈ ex then
    if replace then some (WatchAction.updateCall cm) else none
  else some (WatchAction.createCall cm)

/-- The per-item write decision of the connectors installer loop (non-list
mode): items not selected by a non-empty name set produce nothing. -/
def connectorWriteFor (replace : Bool) (onlyNames ex : List String)
    (cm : ConfigMap) : Option WatchAction :=
  if onlyNames.length ≠ 0 ∧ cm.name ∉ onlyNames then none
  else runtimeWriteFor replace ex cm

theorem installRuntimeItems_eq (replace : Bool) (ex : List String)
    (items : List ConfigMap) :
    installRuntimeItems replace ex items =
      (items.filterMap (runtimeWriteFor replace ex),
       (items.filterMap (runtimeWriteFor replace ex)).length,
       items.countP (fun cm => decide (cm.name ∈ ex) && !replace)) := by
  induction items with
  | nil => rfl
  | cons cm rest ih =>
    by_cases hex : cm.name ∈ ex
    · cases replace
      · simp [installRuntimeItems, hex, ih, List.filterMap_cons, List.countP_cons,
          runtimeWriteFor]
      · simp [installRuntimeItems, hex, ih, List.filterMap_cons, List.countP_cons,
          runtimeWriteFor]
    · simp [installRuntimeItems, hex, ih, List.filterMap_cons, List.countP_cons,
        runtimeWriteFor]

theorem installConnectorItems_eq (replace : Bool) (onlyNames ex : List String)
    (items : List ConfigMap) :
    installConnectorItems replace false onlyNames ex items =
      (items.filterMap (connectorWriteFor replace onlyNames ex),
       (items.filterMap (connectorWriteFor replace onlyNames ex)).length,
       items.countP (fun cm =>
         !(decide (onlyNames.length ≠ 0) && !decide (cm.name ∈ onlyNames)) &&
         decide (cm.name ∈ ex) && !replace)) := by
  induction items with
  | nil => rfl
  | cons cm rest ih =>
    by_cases hsel : onlyNames.length ≠ 0 ∧ cm.name ∉ onlyNames
    · simp [installConnectorItems, hsel, ih, List.filterMap_cons, List.countP_cons,
        connectorWriteFor, hsel.1, hsel.2]
    · have hsel' : onlyNames = [] ∨ cm.name ∈ onlyNames := by
        by_contra hcon
        push_neg at hcon
        exact hsel ⟨fun h => hcon.1 (List.length_eq_zero.mp h), hcon.2⟩
      rcases hsel' with h0 | hmem
      · subst h0
        by_cases hex : cm.name ∈ ex
        · cases replace
          · simp [installConnectorItems, hex, ih, List.filterMap_cons,
              List.countP_cons, connectorWriteFor, runtimeWriteFor]
          · simp [installConnectorItems, hex, ih, List.filterMap_cons,
              List.countP_cons, connectorWriteFor, runtimeWriteFor]
        · simp [installConnectorItems, hex, ih, List.filterMap_cons,
            List.countP_cons, connectorWriteFor, runtimeWriteFor]
      · by_cases hex : cm.name ∈ ex
        · cases replace
          · simp [installConnectorItems, hex, hmem, ih, List.filterMap_cons,
              List.countP_cons, connectorWriteFor, runtimeWriteFor]
          · simp [installConnectorItems, hex, hmem, ih, List.filterMap_cons,
              List.countP_cons, connectorWriteFor, runtimeWriteFor]
        · simp [installConnectorItems, hex, hmem, ih, List.filterMap_cons,
            List.countP_cons, connectorWriteFor, runtimeWriteFor]

/-- C9: per-item behavior of the installers.  For both `installRuntimes` and
`installConnectors` (non-list mode, `--all` set so the loop runs), the write
trace contains, for each bundle item in order: exactly one Update when the
item's name already exists in the store snapshot and the replace flag is
set; no write (counted in the ignored tally) when the name exists and
replace is unset; and exactly one Create when the name is absent.  The
installed count is the number of writes and the ignored count is the number
of existing-name items skipped. -/
theorem installers_per_item (replace : Bool) (store : Store)
    (onlyNames : List String) (items : List ConfigMap) :
    installRuntimes replace store items =
      (items.filterMap (runtimeWriteFor replace (store.runtimes.map (fun r => r.name))),
       (items.filterMap
         (runtimeWriteFor replace (store.runtimes.map (fun r => r.name)))).length,
       items.countP (fun cm =>
         decide (cm.name ∈ store.runtimes.map (fun r => r.name)) && !replace)) ∧
    installConnectors replace false true onlyNames store items =
      (items.filterMap
         (connectorWriteFor replace onlyNames (store.connectors.map (fun r => r.name))),
       (items.filterMap
         (connectorWriteFor replace onlyNames
           (store.connectors.map (fun r => r.name)))).length,
       items.countP (fun cm =>
         !(decide (onlyNames.length ≠ 0) && !decide (cm.name ∈ onlyNames)) &&
         decide (cm.name ∈ store.connectors.map (fun r => r.name)) && !replace)) := by
  constructor
  · exact installRuntimeItems_eq replace _ items
  · show installConnectorItems replace false onlyNames _ items = _
    exact installConnectorItems_eq replace onlyNames _ items

end Funktion
